import Mathlib

/-!
Shallow embedding of the lambdachess board component (src/index.ts):
an 8x8 chess board model, a renderer, and a two-click relocation
controller. Definitions follow the TypeScript source; theorems settle
the specification's claims about it.
-/

/-- Size of a chess board (number of ranks and files), `SIZE` in the source. -/
def SIZE : Nat := 8

/-- Piece color, the `Color` enum (WHITE = 0, BLACK = 1). -/
inductive Color where
  | WHITE
  | BLACK
deriving DecidableEq, Repr

/-- The numeric value of the color, used to index a piece type's glyph array. -/
def Color.toNat : Color → Nat
  | .WHITE => 0
  | .BLACK => 1

/-- The type of piece, independent of color: class `PieceType`, holding the
display glyphs for white (index 0) and black (index 1). Each glyph is a
single unicode character in the source, so it is modelled as a `Char`. -/
structure PieceType where
  character : List Char
deriving DecidableEq, Repr

def PieceType.ROOK : PieceType := ⟨['♖', '♜']⟩

def PieceType.KNIGHT : PieceType := ⟨['♘', '♞']⟩

def PieceType.BISHOP : PieceType := ⟨['♗', '♝']⟩

def PieceType.KING : PieceType := ⟨['♔', '♚']⟩

def PieceType.QUEEN : PieceType := ⟨['♕', '♛']⟩

def PieceType.PAWN : PieceType := ⟨['♙', '♟']⟩

/-- `PieceType.INITIAL`: back-rank piece order. -/
def PieceType.INITIAL : List PieceType :=
  [PieceType.ROOK, PieceType.KNIGHT, PieceType.BISHOP, PieceType.QUEEN,
   PieceType.KING, PieceType.BISHOP, PieceType.KNIGHT, PieceType.ROOK]

/-- Actual piece on the board: class `Piece`. -/
structure Piece where
  pieceType : PieceType
  color : Color
deriving DecidableEq, Repr

/-- `Piece.character()`: `this.pieceType.character[this.color]`. The color
index is always 0 or 1 and the glyph array always has two entries, so the
`getD` default is never reached. -/
def Piece.character (p : Piece) : Char :=
  p.pieceType.character.getD p.color.toNat ' '

/-- A square can have a piece or be empty (null): `type SquareContent`. -/
abbrev SquareContent : Type := Option Piece

/-- `type SquarePosition = { file: number, rank: number }`. Coordinates are
nonnegative integers (all coordinates produced by the program are in [0,7]). -/
structure SquarePosition where
  file : Nat
  rank : Nat
deriving DecidableEq, Repr

/-- Class `Board`: `squares` is indexed `[file][rank]`, plus the selection
marker. The externally-settable `onSquareClick` callback lives outside the
model; the controller's handler is `onSquareClick` below. -/
structure Board where
  squares : List (List SquareContent)
  selectedSquare : Option SquarePosition
deriving DecidableEq, Repr

/-- One cell of the board as set up by the constructor loop body:
`rank === 0 ? new Piece(PieceType.INITIAL[file], Color.WHITE) : ...`.
The constructor only calls this with `file < 8`, where the `getD` default
is never reached (`INITIAL` has 8 entries). -/
def initialSquare (file rank : Nat) : SquareContent :=
  if rank = 0 then some ⟨PieceType.INITIAL.getD file PieceType.ROOK, Color.WHITE⟩
  else if rank = 1 then some ⟨PieceType.PAWN, Color.WHITE⟩
  else if rank = 6 then some ⟨PieceType.PAWN, Color.BLACK⟩
  else if rank = 7 then some ⟨PieceType.INITIAL.getD file PieceType.ROOK, Color.BLACK⟩
  else none

/-- The `Board` constructor: for each file 0..7 push the column of ranks
0..7, each filled by the standard starting position rule; no selection. -/
def Board.init : Board :=
  { squares := (List.range SIZE).map (fun file =>
      (List.range SIZE).map (fun rank => initialSquare file rank)),
    selectedSquare := none }

/-- `Board.get`: `this.squares[pos.file][pos.rank]`, as used on in-range
positions (every position the program passes is in [0,7]^2, where this
matches the JavaScript exactly). Out-of-range JavaScript behaviour is
modelled separately by `Board.getJS`. -/
def Board.get (b : Board) (pos : SquarePosition) : SquareContent :=
  (b.squares.getD pos.file []).getD pos.rank none

/-- `Board.set`: `this.squares[pos.file][pos.rank] = piece`, as used on
in-range positions. Out-of-range JavaScript behaviour is modelled
separately by `Board.setJS`. -/
def Board.set (b : Board) (pos : SquarePosition) (piece : SquareContent) : Board :=
  { b with squares :=
      b.squares.set pos.file ((b.squares.getD pos.file []).set pos.rank piece) }

/-- Number of occupied (non-null) squares of the board. -/
def occupiedCount (b : Board) : Nat :=
  (b.squares.map (fun col => col.countP (fun c => c.isSome))).sum

/-- C1: freshly constructed board: rank 0 holds ROOK, KNIGHT, BISHOP, QUEEN,
KING, BISHOP, KNIGHT, ROOK in white at files 0..7, rank 7 the same sequence
in black, rank 1 eight white pawns, rank 6 eight black pawns, ranks 2..5
empty, and exactly 32 squares are occupied. -/
theorem initial_layout :
    ((List.range 8).map (fun f => Board.init.get ⟨f, 0⟩) =
      [some ⟨PieceType.ROOK, Color.WHITE⟩, some ⟨PieceType.KNIGHT, Color.WHITE⟩,
       some ⟨PieceType.BISHOP, Color.WHITE⟩, some ⟨PieceType.QUEEN, Color.WHITE⟩,
       some ⟨PieceType.KING, Color.WHITE⟩, some ⟨PieceType.BISHOP, Color.WHITE⟩,
       some ⟨PieceType.KNIGHT, Color.WHITE⟩, some ⟨PieceType.ROOK, Color.WHITE⟩]) ∧
    ((List.range 8).map (fun f => Board.init.get ⟨f, 7⟩) =
      [some ⟨PieceType.ROOK, Color.BLACK⟩, some ⟨PieceType.KNIGHT, Color.BLACK⟩,
       some ⟨PieceType.BISHOP, Color.BLACK⟩, some ⟨PieceType.QUEEN, Color.BLACK⟩,
       some ⟨PieceType.KING, Color.BLACK⟩, some ⟨PieceType.BISHOP, Color.BLACK⟩,
       some ⟨PieceType.KNIGHT, Color.BLACK⟩, some ⟨PieceType.ROOK, Color.BLACK⟩]) ∧
    ((List.range 8).map (fun f => Board.init.get ⟨f, 1⟩) =
      List.replicate 8 (some ⟨PieceType.PAWN, Color.WHITE⟩)) ∧
    ((List.range 8).map (fun f => Board.init.get ⟨f, 6⟩) =
      List.replicate 8 (some ⟨PieceType.PAWN, Color.BLACK⟩)) ∧
    (∀ f : Fin 8, ∀ r : Fin 8, 2 ≤ r.val → r.val ≤ 5 → Board.init.get ⟨f.val, r.val⟩ = none) ∧
    occupiedCount Board.init = 32 := by
  decide

/-- The process-wide interaction state of the controller: the `Board`
instance together with the module-level `sourceSquare` variable
(`let sourceSquare: SquarePosition | null = null`). -/
structure AppState where
  board : Board
  sourceSquare : Option SquarePosition
deriving DecidableEq, Repr

/-- The state right after module load: `new Board()` and a null
`sourceSquare`. -/
def initialAppState : AppState :=
  { board := Board.init, sourceSquare := none }

/-- The `board.onSquareClick` handler. If no source square is armed and the
clicked square is occupied, arm it (and set the board's selection marker);
if a source square is armed, relocate its content onto the clicked square
when the squares differ, then clear both markers. The trailing redraw has
no effect on this state. -/
def onSquareClick (s : AppState) (file rank : Nat) : AppState :=
  let pos : SquarePosition := ⟨file, rank⟩
  let piece := s.board.get pos
  match s.sourceSquare with
  | none =>
    if piece.isSome then
      { board := { s.board with selectedSquare := some pos }, sourceSquare := some pos }
    else
      s
  | some src =>
    let b :=
      if pos.file ≠ src.file ∨ pos.rank ≠ src.rank then
        (s.board.set pos (s.board.get src)).set src none
      else
        s.board
    { board := { b with selectedSquare := none }, sourceSquare := none }

/-- States reachable from the freshly constructed board by click events.
Every click delivered by the renderer carries coordinates from its own
bounded loops, so file and rank are in [0,7]. -/
inductive Reachable : AppState → Prop where
  | init : Reachable initialAppState
  | step {s : AppState} (file rank : Nat) :
      Reachable s → file < 8 → rank < 8 → Reachable (onSquareClick s file rank)

/-- C7: in the Idle state, clicking an empty square changes nothing: the
resulting state (board cells and selection alike) is the previous one. -/
theorem idle_click_empty_noop (s : AppState) (file rank : Nat)
    (hfile : file < 8) (hrank : rank < 8)
    (hidle : s.sourceSquare = none)
    (hempty : s.board.get ⟨file, rank⟩ = none) :
    onSquareClick s file rank = s := by
  simp [onSquareClick, hidle, hempty]

/-- Witness for C7: clicking the empty square (4,4) on the fresh board
leaves the state unchanged. -/
theorem idle_click_empty_noop_witness :
    onSquareClick initialAppState 4 4 = initialAppState :=
  idle_click_empty_noop initialAppState 4 4 (by decide) (by decide) rfl (by decide)

/-- C5: in the Idle state, clicking an occupied square and then clicking the
same square again leaves the piece layout identical and the selection
cleared, back in Idle. -/
theorem select_deselect_roundtrip (s : AppState) (file rank : Nat)
    (hfile : file < 8) (hrank : rank < 8)
    (hidle : s.sourceSquare = none)
    (hocc : (s.board.get ⟨file, rank⟩).isSome) :
    (onSquareClick (onSquareClick s file rank) file rank).board.squares =
      s.board.squares ∧
    (onSquareClick (onSquareClick s file rank) file rank).board.selectedSquare = none ∧
    (onSquareClick (onSquareClick s file rank) file rank).sourceSquare = none := by
  have h1 : onSquareClick s file rank =
      { board := { s.board with selectedSquare := some ⟨file, rank⟩ },
        sourceSquare := some ⟨file, rank⟩ } := by
    simp [onSquareClick, hidle, hocc]
  rw [h1]
  simp [onSquareClick]

/-- Witness for C5: selecting then deselecting the white rook at (0,0) on
the fresh board restores the initial layout with no selection. -/
theorem select_deselect_roundtrip_witness :
    (onSquareClick (onSquareClick initialAppState 0 0) 0 0).board.squares =
      initialAppState.board.squares ∧
    (onSquareClick (onSquareClick initialAppState 0 0) 0 0).board.selectedSquare = none ∧
    (onSquareClick (onSquareClick initialAppState 0 0) 0 0).sourceSquare = none :=
  select_deselect_roundtrip initialAppState 0 0 (by decide) (by decide) rfl (by decide)

/-- C6: from the initial layout, clicking (4,1) then (4,3) empties (4,1),
puts a white pawn on (4,3), clears the selection, and leaves the other 62
squares exactly as in the initial layout. -/
theorem concrete_pawn_move :
    (onSquareClick (onSquareClick initialAppState 4 1) 4 3).board.get ⟨4, 1⟩ = none ∧
    (onSquareClick (onSquareClick initialAppState 4 1) 4 3).board.get ⟨4, 3⟩ =
      some ⟨PieceType.PAWN, Color.WHITE⟩ ∧
    (onSquareClick (onSquareClick initialAppState 4 1) 4 3).board.selectedSquare = none ∧
    (onSquareClick (onSquareClick initialAppState 4 1) 4 3).sourceSquare = none ∧
    (∀ f : Fin 8, ∀ r : Fin 8,
      (f.val = 4 ∧ (r.val = 1 ∨ r.val = 3)) ∨
      (onSquareClick (onSquareClick initialAppState 4 1) 4 3).board.get ⟨f.val, r.val⟩ =
        Board.init.get ⟨f.val, r.val⟩) := by
  decide

/-- A board is well-formed when its grid is exactly 8 columns of 8 cells,
as the constructor builds it and every mutation preserves. -/
def Board.Wf (b : Board) : Prop :=
  b.squares.length = 8 ∧ ∀ col ∈ b.squares, col.length = 8

instance (b : Board) : Decidable b.Wf :=
  inferInstanceAs (Decidable (_ ∧ _))

theorem getD_set_self {α : Type} (l : List α) (i : Nat) (a d : α) (h : i < l.length) :
    (l.set i a).getD i d = a := by
  induction l generalizing i with
  | nil => simp at h
  | cons hd tl ih =>
    cases i with
    | zero => rfl
    | succ n =>
      simp only [List.set_cons_succ, List.getD_cons_succ]
      exact ih n (by simpa using h)

theorem getD_set_ne {α : Type} (l : List α) (i j : Nat) (a d : α) (h : i ≠ j) :
    (l.set i a).getD j d = l.getD j d := by
  induction l generalizing i j with
  | nil => simp [List.set]
  | cons hd tl ih =>
    cases i with
    | zero =>
      cases j with
      | zero => exact absurd rfl h
      | succ m => rfl
    | succ n =>
      cases j with
      | zero => rfl
      | succ m =>
        simp only [List.set_cons_succ, List.getD_cons_succ]
        exact ih n m (by omega)

theorem set_of_length_le {α : Type} (l : List α) (i : Nat) (a : α)
    (h : l.length ≤ i) : l.set i a = l := by
  induction l generalizing i with
  | nil => rfl
  | cons hd tl ih =>
    cases i with
    | zero => simp at h
    | succ n => simp only [List.set_cons_succ]; rw [ih n (by simpa using h)]

/-- Columns of a well-formed board, read the way `Board.get` reads them,
have 8 cells. -/
theorem wf_col_length {b : Board} (hwf : b.Wf) {file : Nat} (hf : file < 8) :
    (b.squares.getD file []).length = 8 := by
  obtain ⟨hlen, hcols⟩ := hwf
  have hin : b.squares.getD file [] ∈ b.squares := by
    rw [List.getD_eq_getElem?_getD]
    have hlt : file < b.squares.length := by omega
    rw [List.getElem?_eq_getElem hlt]
    exact List.getElem_mem hlt
  exact hcols _ hin

/-- `Board.set` never changes the grid dimensions. -/
theorem wf_set {b : Board} (hwf : b.Wf) (pos : SquarePosition) (v : SquareContent) :
    (b.set pos v).Wf := by
  obtain ⟨hlen, hcols⟩ := hwf
  by_cases hf : pos.file < 8
  · refine ⟨by simp [Board.set, hlen], ?_⟩
    intro col hcol
    simp only [Board.set] at hcol
    rcases List.mem_or_eq_of_mem_set hcol with hmem | heq
    · exact hcols _ hmem
    · rw [heq, List.length_set]
      exact wf_col_length ⟨hlen, hcols⟩ hf
  · simp only [Board.set]
    rw [set_of_length_le _ _ _ (by omega)]
    exact ⟨hlen, hcols⟩

/-- Reading back the square just written. -/
theorem get_set_self {b : Board} (hwf : b.Wf) (pos : SquarePosition)
    (v : SquareContent) (hf : pos.file < 8) (hr : pos.rank < 8) :
    (b.set pos v).get pos = v := by
  obtain ⟨hlen, hcols⟩ := hwf
  simp only [Board.set, Board.get]
  rw [getD_set_self _ _ _ _ (by omega)]
  rw [getD_set_self]
  rw [wf_col_length ⟨hlen, hcols⟩ hf]
  omega

/-- Writing one square leaves every other square unchanged. -/
theorem get_set_ne (b : Board) (pos q : SquarePosition) (v : SquareContent)
    (h : pos.file ≠ q.file ∨ pos.rank ≠ q.rank) :
    (b.set pos v).get q = b.get q := by
  simp only [Board.set, Board.get]
  rcases h with hfile | hrank
  · rw [getD_set_ne _ _ _ _ _ hfile]
  · by_cases hfe : pos.file = q.file
    · rw [hfe]
      by_cases hlt : q.file < b.squares.length
      · rw [getD_set_self _ _ _ _ hlt, getD_set_ne _ _ _ _ _ hrank]
      · rw [set_of_length_le _ _ _ (by omega)]
    · rw [getD_set_ne _ _ _ _ _ hfe]

/-- `Board.set` does not touch the selection marker. -/
theorem set_selectedSquare (b : Board) (pos : SquarePosition) (v : SquareContent) :
    (b.set pos v).selectedSquare = b.selectedSquare := rfl

/-- C2: from an Armed state with source square S, clicking any different
square D moves the content of S onto D (overwriting whatever D held, with
no error and no capture bookkeeping), empties S, clears the selection, and
returns to Idle. -/
theorem armed_click_relocates (s : AppState) (src : SquarePosition)
    (file rank : Nat) (hwf : s.board.Wf)
    (harmed : s.sourceSquare = some src)
    (hsf : src.file < 8) (hsr : src.rank < 8)
    (hf : file < 8) (hr : rank < 8)
    (hne : file ≠ src.file ∨ rank ≠ src.rank) :
    (onSquareClick s file rank).board.get ⟨file, rank⟩ = s.board.get src ∧
    (onSquareClick s file rank).board.get src = none ∧
    (onSquareClick s file rank).board.selectedSquare = none ∧
    (onSquareClick s file rank).sourceSquare = none := by
  have hstep : onSquareClick s file rank =
      { board := { (s.board.set ⟨file, rank⟩ (s.board.get src)).set src none with
                   selectedSquare := none },
        sourceSquare := none } := by
    simp only [onSquareClick, harmed]
    rw [if_pos hne]
  rw [hstep]
  refine ⟨?_, ?_, rfl, rfl⟩
  · show ((s.board.set ⟨file, rank⟩ (s.board.get src)).set src none).get ⟨file, rank⟩ = _
    rw [get_set_ne _ _ _ _ (by rcases hne with h | h; exact Or.inl (Ne.symm h); exact Or.inr (Ne.symm h))]
    exact get_set_self hwf _ _ hf hr
  · show ((s.board.set ⟨file, rank⟩ (s.board.get src)).set src none).get src = none
    exact get_set_self (wf_set hwf _ _) _ _ hsf hsr

/-- Witness for C2: on the fresh board, arm (0,0) (the white rook) and click
(0,1) (the white pawn): (0,1) now holds the rook, (0,0) is empty, the
selection is cleared, and the controller is back in Idle. -/
theorem armed_click_relocates_witness :
    (onSquareClick (onSquareClick initialAppState 0 0) 0 1).board.get ⟨0, 1⟩ =
      Board.init.get ⟨0, 0⟩ ∧
    (onSquareClick (onSquareClick initialAppState 0 0) 0 1).board.get ⟨0, 0⟩ = none ∧
    (onSquareClick (onSquareClick initialAppState 0 0) 0 1).board.selectedSquare = none ∧
    (onSquareClick (onSquareClick initialAppState 0 0) 0 1).sourceSquare = none :=
  armed_click_relocates (onSquareClick initialAppState 0 0) ⟨0, 0⟩ 0 1
    (by decide) (by decide) (by decide) (by decide) (by decide) (by decide)
    (Or.inr (by decide))

/-- Invariant tying the controller to the board: the module-level
`sourceSquare` and the board's `selectedSquare` are equal; the grid is
8x8; and an armed source square is in range and occupied. -/
def StateInv (s : AppState) : Prop :=
  s.sourceSquare = s.board.selectedSquare ∧
  s.board.Wf ∧
  ∀ p, s.sourceSquare = some p → p.file < 8 ∧ p.rank < 8 ∧ (s.board.get p).isSome

theorem stateInv_init : StateInv initialAppState := by
  refine ⟨rfl, by decide, ?_⟩
  intro p hp
  simp [initialAppState] at hp

theorem stateInv_step (s : AppState) (hinv : StateInv s) (file rank : Nat)
    (hf : file < 8) (hr : rank < 8) : StateInv (onSquareClick s file rank) := by
  obtain ⟨hsync, hwf, hsrcinv⟩ := hinv
  cases hsrc : s.sourceSquare with
  | none =>
    by_cases hocc : (s.board.get ⟨file, rank⟩).isSome
    · have hstep : onSquareClick s file rank =
          { board := { s.board with selectedSquare := some ⟨file, rank⟩ },
            sourceSquare := some ⟨file, rank⟩ } := by
        simp [onSquareClick, hsrc, hocc]
      rw [hstep]
      refine ⟨rfl, hwf, ?_⟩
      intro p hp
      cases Option.some.inj hp
      exact ⟨hf, hr, hocc⟩
    · have hstep : onSquareClick s file rank = s := by
        simp [onSquareClick, hsrc, hocc]
      rw [hstep]
      exact ⟨hsync, hwf, hsrcinv⟩
  | some src =>
    by_cases hdiff : file ≠ src.file ∨ rank ≠ src.rank
    · have hstep : onSquareClick s file rank =
          { board := { (s.board.set ⟨file, rank⟩ (s.board.get src)).set src none with
                       selectedSquare := none },
            sourceSquare := none } := by
        simp only [onSquareClick, hsrc]
        rw [if_pos hdiff]
      rw [hstep]
      refine ⟨rfl, wf_set (wf_set hwf _ _) _ _, ?_⟩
      intro p hp
      simp at hp
    · have hstep : onSquareClick s file rank =
          { board := { s.board with selectedSquare := none },
            sourceSquare := none } := by
        simp only [onSquareClick, hsrc]
        rw [if_neg hdiff]
      rw [hstep]
      refine ⟨rfl, hwf, ?_⟩
      intro p hp
      simp at hp

/-- Every reachable state satisfies the controller/board invariant. -/
theorem reachable_inv (s : AppState) (hs : Reachable s) : StateInv s := by
  induction hs with
  | init => exact stateInv_init
  | step file rank hprev hf hr ih => exact stateInv_step _ ih file rank hf hr

/-- C8: in every state reachable by clicks from the fresh board (so after
every invocation of onSquareClick), the controller's `sourceSquare` and the
board's `selectedSquare` agree: both null, or both the same square. -/
theorem markers_in_sync (s : AppState) (hs : Reachable s) :
    (s.sourceSquare = none ∧ s.board.selectedSquare = none) ∨
    (∃ p, s.sourceSquare = some p ∧ s.board.selectedSquare = some p) := by
  have hsync := (reachable_inv s hs).1
  cases hval : s.sourceSquare with
  | none => exact Or.inl ⟨rfl, by rw [← hsync, hval]⟩
  | some p => exact Or.inr ⟨p, rfl, by rw [← hsync, hval]⟩

/-- Witness for C8: in the freshly constructed state, both markers are null. -/
theorem markers_in_sync_witness :
    (initialAppState.sourceSquare = none ∧
      initialAppState.board.selectedSquare = none) ∨
    (∃ p, initialAppState.sourceSquare = some p ∧
      initialAppState.board.selectedSquare = some p) :=
  markers_in_sync initialAppState Reachable.init

/-- C9: in every reachable state, the selected square (when set) references
an occupied square: it held a piece when selected, and no click empties it
without clearing the selection. -/
theorem selected_square_occupied (s : AppState) (hs : Reachable s)
    (p : SquarePosition) (hsel : s.board.selectedSquare = some p) :
    (s.board.get p).isSome := by
  obtain ⟨hsync, hwf, hsrcinv⟩ := reachable_inv s hs
  exact (hsrcinv p (hsync.trans hsel)).2.2

/-- Witness for C9: after clicking the white rook at (0,0), the selected
square (0,0) is occupied. -/
theorem selected_square_occupied_witness :
    ((onSquareClick initialAppState 0 0).board.get ⟨0, 0⟩).isSome :=
  selected_square_occupied (onSquareClick initialAppState 0 0)
    (Reachable.step 0 0 Reachable.init (by decide) (by decide))
    ⟨0, 0⟩ (by decide)

theorem countP_set_balance {α : Type} (l : List α) (p : α → Bool) (i : Nat)
    (a d : α) (h : i < l.length) :
    (l.set i a).countP p + (if p (l.getD i d) then 1 else 0) =
      l.countP p + (if p a then 1 else 0) := by
  induction l generalizing i with
  | nil => simp at h
  | cons hd tl ih =>
    cases i with
    | zero =>
      simp only [List.set_cons_zero, List.countP_cons, List.getD_cons_zero]
      omega
    | succ n =>
      simp only [List.set_cons_succ, List.countP_cons, List.getD_cons_succ]
      have := ih n (by simpa using h)
      omega

theorem sum_map_set_balance {α : Type} (l : List α) (f : α → Nat) (i : Nat)
    (a d : α) (h : i < l.length) :
    ((l.set i a).map f).sum + f (l.getD i d) = (l.map f).sum + f a := by
  induction l generalizing i with
  | nil => simp at h
  | cons hd tl ih =>
    cases i with
    | zero =>
      simp only [List.set_cons_zero, List.map_cons, List.sum_cons, List.getD_cons_zero]
      omega
    | succ n =>
      simp only [List.set_cons_succ, List.map_cons, List.sum_cons, List.getD_cons_succ]
      have := ih n (by simpa using h)
      omega

/-- Writing one in-range square trades its old occupancy for the occupancy
of the value written. -/
theorem occupiedCount_set (b : Board) (pos : SquarePosition) (v : SquareContent)
    (hwf : b.Wf) (hf : pos.file < 8) (hr : pos.rank < 8) :
    occupiedCount (b.set pos v) + (if (b.get pos).isSome then 1 else 0) =
      occupiedCount b + (if v.isSome then 1 else 0) := by
  have hfl : pos.file < b.squares.length := by rw [hwf.1]; exact hf
  have hcl : pos.rank < (b.squares.getD pos.file []).length := by
    rw [wf_col_length hwf hf]; exact hr
  have houter := sum_map_set_balance b.squares
    (fun col => col.countP (fun c => c.isSome)) pos.file
    ((b.squares.getD pos.file []).set pos.rank v) [] hfl
  have hinner := countP_set_balance (b.squares.getD pos.file [])
    (fun c => c.isSome) pos.rank v none hcl
  simp only [occupiedCount, Board.set, Board.get]
  simp only at houter hinner
  omega

/-- A click is a capturing relocation when a source square is armed, the
clicked square differs from it, and the clicked square is occupied. -/
def captureClick (s : AppState) (file rank : Nat) : Prop :=
  ∃ src, s.sourceSquare = some src ∧ (file ≠ src.file ∨ rank ≠ src.rank) ∧
    (s.board.get ⟨file, rank⟩).isSome

/-- One click on a state satisfying the invariant removes exactly one
occupied square when it is a capturing relocation and otherwise preserves
the count. -/
theorem count_step (s : AppState) (hinv : StateInv s) (file rank : Nat)
    (hf : file < 8) (hr : rank < 8) :
    (captureClick s file rank →
      occupiedCount (onSquareClick s file rank).board + 1 = occupiedCount s.board) ∧
    (¬captureClick s file rank →
      occupiedCount (onSquareClick s file rank).board = occupiedCount s.board) := by
  obtain ⟨hsync, hwf, hsrcinv⟩ := hinv
  cases hsrc : s.sourceSquare with
  | none =>
    have hcount : occupiedCount (onSquareClick s file rank).board =
        occupiedCount s.board := by
      by_cases hocc : (s.board.get ⟨file, rank⟩).isSome
      · have hstep : onSquareClick s file rank =
            { board := { s.board with selectedSquare := some ⟨file, rank⟩ },
              sourceSquare := some ⟨file, rank⟩ } := by
          simp [onSquareClick, hsrc, hocc]
        rw [hstep]
        rfl
      · have hstep : onSquareClick s file rank = s := by
          simp [onSquareClick, hsrc, hocc]
        rw [hstep]
    refine ⟨?_, fun _ => hcount⟩
    rintro ⟨src, hsome, -, -⟩
    rw [hsrc] at hsome
    exact absurd hsome (by simp)
  | some src =>
    obtain ⟨hsf, hsr, hsocc⟩ := hsrcinv src hsrc
    by_cases hdiff : file ≠ src.file ∨ rank ≠ src.rank
    · have hstep : onSquareClick s file rank =
          { board := { (s.board.set ⟨file, rank⟩ (s.board.get src)).set src none with
                       selectedSquare := none },
            sourceSquare := none } := by
        simp only [onSquareClick, hsrc]
        rw [if_pos hdiff]
      have hne : (⟨file, rank⟩ : SquarePosition).file ≠ src.file ∨
          (⟨file, rank⟩ : SquarePosition).rank ≠ src.rank := hdiff
      have hget1 : (s.board.set ⟨file, rank⟩ (s.board.get src)).get src =
          s.board.get src := get_set_ne s.board ⟨file, rank⟩ src _ hne
      have he1 := occupiedCount_set s.board ⟨file, rank⟩ (s.board.get src) hwf hf hr
      have he2 := occupiedCount_set (s.board.set ⟨file, rank⟩ (s.board.get src)) src none
        (wf_set hwf _ _) hsf hsr
      rw [hget1, hsocc] at he2
      have he2' : occupiedCount ((s.board.set ⟨file, rank⟩ (s.board.get src)).set src none)
          + 1 = occupiedCount (s.board.set ⟨file, rank⟩ (s.board.get src)) := by
        simpa using he2
      have hcount : occupiedCount (onSquareClick s file rank).board =
          occupiedCount ((s.board.set ⟨file, rank⟩ (s.board.get src)).set src none) := by
        rw [hstep]
        rfl
      rw [hsocc] at he1
      constructor
      · rintro ⟨src2, hsome2, -, hocc2⟩
        rw [hsrc] at hsome2
        cases Option.some.inj hsome2
        rw [hocc2] at he1
        have he1' : occupiedCount (s.board.set ⟨file, rank⟩ (s.board.get src)) + 1 =
            occupiedCount s.board + 1 := by
          simpa using he1
        omega
      · intro hnc
        have hocc2 : (s.board.get ⟨file, rank⟩).isSome = false := by
          rcases Bool.eq_false_or_eq_true ((s.board.get ⟨file, rank⟩).isSome) with h | h
          · exact absurd ⟨src, hsrc, hdiff, h⟩ hnc
          · exact h
        rw [hocc2] at he1
        have he1' : occupiedCount (s.board.set ⟨file, rank⟩ (s.board.get src)) =
            occupiedCount s.board + 1 := by
          simpa using he1
        omega
    · have hstep : onSquareClick s file rank =
          { board := { s.board with selectedSquare := none },
            sourceSquare := none } := by
        simp only [onSquareClick, hsrc]
        rw [if_neg hdiff]
      have hcount : occupiedCount (onSquareClick s file rank).board =
          occupiedCount s.board := by
        rw [hstep]
        rfl
      refine ⟨?_, fun _ => hcount⟩
      rintro ⟨src2, hsome2, hd2, -⟩
      rw [hsrc] at hsome2
      cases Option.some.inj hsome2
      exact absurd hd2 hdiff

/-- The occupied-square count of every reachable state is at most 32. -/
theorem reachable_count_le (s : AppState) (hs : Reachable s) :
    occupiedCount s.board ≤ 32 := by
  induction hs with
  | init => decide
  | step file rank hprev hf hr ih =>
    rename_i s0
    have hinv := reachable_inv s0 hprev
    have hstep := count_step s0 hinv file rank hf hr
    by_cases hc : captureClick s0 file rank
    · have := hstep.1 hc
      omega
    · have := hstep.2 hc
      omega

/-- C10: from any reachable state, a click never increases the number of
occupied squares: a capturing relocation (armed source, different
destination, destination occupied) lowers the count by exactly one, any
other click leaves it unchanged, and every reachable state keeps at most
32 occupied squares. -/
theorem occupied_count_monotone (s : AppState) (hs : Reachable s)
    (file rank : Nat) (hf : file < 8) (hr : rank < 8) :
    (captureClick s file rank →
      occupiedCount (onSquareClick s file rank).board + 1 = occupiedCount s.board) ∧
    (¬captureClick s file rank →
      occupiedCount (onSquareClick s file rank).board = occupiedCount s.board) ∧
    occupiedCount s.board ≤ 32 ∧
    occupiedCount (onSquareClick s file rank).board ≤ 32 := by
  obtain ⟨h1, h2⟩ := count_step s (reachable_inv s hs) file rank hf hr
  exact ⟨h1, h2, reachable_count_le s hs,
    reachable_count_le _ (Reachable.step file rank hs hf hr)⟩

/-- Witness for C10: arming the white rook at (0,0) and capturing the pawn
at (0,1) on the fresh board. -/
theorem occupied_count_monotone_witness :
    (captureClick (onSquareClick initialAppState 0 0) 0 1 →
      occupiedCount (onSquareClick (onSquareClick initialAppState 0 0) 0 1).board + 1 =
        occupiedCount (onSquareClick initialAppState 0 0).board) ∧
    (¬captureClick (onSquareClick initialAppState 0 0) 0 1 →
      occupiedCount (onSquareClick (onSquareClick initialAppState 0 0) 0 1).board =
        occupiedCount (onSquareClick initialAppState 0 0).board) ∧
    occupiedCount (onSquareClick initialAppState 0 0).board ≤ 32 ∧
    occupiedCount (onSquareClick (onSquareClick initialAppState 0 0) 0 1).board ≤ 32 :=
  occupied_count_monotone (onSquareClick initialAppState 0 0)
    (Reachable.step 0 0 Reachable.init (by decide) (by decide))
    0 1 (by decide) (by decide)

/-- One square element as `Board.draw` builds it: its coordinates (captured
by the click listener), the dark/light class toggles, the optional
`square-selected` class, and the glyph text set when a piece is present. -/
structure CellView where
  file : Nat
  rank : Nat
  isDark : Bool
  isLight : Bool
  selected : Bool
  text : Option Char
deriving DecidableEq, Repr, Inhabited

/-- The body of the inner loop of `Board.draw` for one square. -/
def mkCell (b : Board) (file rank : Nat) : CellView :=
  let piece := (b.squares.getD file []).getD rank none
  let isDark := (rank + file) % 2 == 0
  { file := file
    rank := rank
    isDark := isDark
    isLight := !isDark
    selected :=
      match b.selectedSquare with
      | some sel => sel.file == file && sel.rank == rank
      | none => false
    text := piece.map Piece.character }

/-- `Board.draw`: one row per rank, iterated from rank 7 down to rank 0,
and within each row one cell per file, iterated 0 to 7. The DOM container
is fully rebuilt, so its contents after a draw are exactly this list. -/
def Board.draw (b : Board) : List (List CellView) :=
  ((List.range SIZE).reverse).map (fun rank =>
    (List.range SIZE).map (fun file => mkCell b file rank))

theorem draw_length (b : Board) : b.draw.length = 8 := by
  simp [Board.draw, SIZE]

theorem draw_row (b : Board) (i : Nat) (hi : i < 8) :
    b.draw.getD i [] = (List.range 8).map (fun file => mkCell b file (7 - i)) := by
  interval_cases i <;> rfl

theorem draw_cell (b : Board) (i j : Nat) (hi : i < 8) (hj : j < 8) :
    (b.draw.getD i []).getD j default = mkCell b j (7 - i) := by
  rw [draw_row b i hi]
  interval_cases j <;> rfl

theorem mkCell_selected (b : Board) (file rank : Nat) :
    ((mkCell b file rank).selected = true) ↔ b.selectedSquare = some ⟨file, rank⟩ := by
  cases hsel : b.selectedSquare with
  | none => simp [mkCell, hsel]
  | some sel =>
    cases sel with
    | mk sf sr => simp [mkCell, hsel, and_comm]

/-- C4: for every board state, `draw` yields exactly 8 rows (rank 7 at the
top down to rank 0) of exactly 8 cells (files 0 to 7); the cell at row i,
column j shows square (file j, rank 7-i); it is tagged dark iff
(file+rank) % 2 == 0 and light otherwise, tagged selected iff it equals the
current selectedSquare (so 0 or 1 cells are), and carries glyph text iff
the model cell is occupied, the text being the piece's color glyph. -/
theorem draw_spec (b : Board) (i j : Nat) (hi : i < 8) (hj : j < 8) :
    b.draw.length = 8 ∧
    (b.draw.getD i []).length = 8 ∧
    ((b.draw.getD i []).getD j default).file = j ∧
    ((b.draw.getD i []).getD j default).rank = 7 - i ∧
    ((b.draw.getD i []).getD j default).isDark = ((j + (7 - i)) % 2 == 0) ∧
    ((b.draw.getD i []).getD j default).isLight = !((j + (7 - i)) % 2 == 0) ∧
    (((b.draw.getD i []).getD j default).selected = true ↔
      b.selectedSquare = some ⟨j, 7 - i⟩) ∧
    ((b.draw.getD i []).getD j default).text =
      (b.get ⟨j, 7 - i⟩).map Piece.character ∧
    (((b.draw.getD i []).getD j default).text.isSome ↔ (b.get ⟨j, 7 - i⟩).isSome) := by
  have hrow : (b.draw.getD i []).length = 8 := by
    rw [draw_row b i hi]
    simp
  rw [draw_cell b i j hi hj]
  refine ⟨draw_length b, hrow, rfl, rfl, ?_, ?_, mkCell_selected b j (7 - i), rfl, ?_⟩
  · simp [mkCell, Nat.add_comm]
  · simp [mkCell, Nat.add_comm]
  · show ((mkCell b j (7 - i)).text).isSome ↔ _
    simp [mkCell, Board.get]

/-- Witness for C4: the fresh board draws 8 rows of 8 cells; its top-left
cell shows square (0,7), is light, unselected, and shows the black rook. -/
theorem draw_spec_witness :
    Board.init.draw.length = 8 ∧
    (Board.init.draw.getD 0 []).length = 8 ∧
    ((Board.init.draw.getD 0 []).getD 0 default).file = 0 ∧
    ((Board.init.draw.getD 0 []).getD 0 default).rank = 7 - 0 ∧
    ((Board.init.draw.getD 0 []).getD 0 default).isDark = ((0 + (7 - 0)) % 2 == 0) ∧
    ((Board.init.draw.getD 0 []).getD 0 default).isLight = !((0 + (7 - 0)) % 2 == 0) ∧
    (((Board.init.draw.getD 0 []).getD 0 default).selected = true ↔
      Board.init.selectedSquare = some ⟨0, 7 - 0⟩) ∧
    ((Board.init.draw.getD 0 []).getD 0 default).text =
      (Board.init.get ⟨0, 7 - 0⟩).map Piece.character ∧
    (((Board.init.draw.getD 0 []).getD 0 default).text.isSome ↔
      (Board.init.get ⟨0, 7 - 0⟩).isSome) :=
  draw_spec Board.init 0 0 (by decide) (by decide)

/-- Outcome of `Board.get` under JavaScript semantics: a thrown TypeError
(indexing into `undefined` when the file is out of range), the value
`undefined` (an in-range column indexed at an out-of-range rank), or the
stored square content. -/
inductive GetJSResult where
  | thrown
  | undef
  | value (c : SquareContent)
deriving DecidableEq, Repr

/-- `Board.get` with JavaScript out-of-range behaviour:
`this.squares[pos.file]` is `undefined` when the file is past the array,
so `[pos.rank]` on it throws; an in-range column read past its end gives
`undefined` and completes normally. -/
def Board.getJS (b : Board) (pos : SquarePosition) : GetJSResult :=
  match b.squares[pos.file]? with
  | none => GetJSResult.thrown
  | some col =>
    match col[pos.rank]? with
    | none => GetJSResult.undef
    | some c => GetJSResult.value c

/-- `Board.set` with JavaScript out-of-range behaviour: `none` means a
TypeError is thrown (file out of range, assigning through `undefined`);
otherwise the assignment completes normally, extending the column when the
rank is past its end (the holes JavaScript leaves read back as `undefined`;
they are conflated with empty squares here, which does not affect normal
completion versus throwing). -/
def Board.setJS (b : Board) (pos : SquarePosition) (piece : SquareContent) :
    Option Board :=
  match b.squares[pos.file]? with
  | none => none
  | some col =>
    let newcol :=
      if pos.rank < col.length then col.set pos.rank piece
      else col ++ List.replicate (pos.rank - col.length) none ++ [piece]
    some { b with squares := b.squares.set pos.file newcol }

/-- C3 counterexample: at position (file 0, rank 8), whose rank component is
outside [0,7], `get` on the fresh board completes normally returning
`undefined` instead of raising, and `set` also completes normally. -/
theorem get_out_of_range_completes :
    Board.init.getJS ⟨0, 8⟩ = GetJSResult.undef ∧
    Board.init.getJS ⟨0, 8⟩ ≠ GetJSResult.thrown ∧
    (Board.init.setJS ⟨0, 8⟩ none).isSome = true := by
  decide

/-- C3 amended: `get` and `set` throw precisely when the file component is
outside [0,7]: with the file out of range both throw a TypeError; with the
file in range and the rank outside [0,7], `get` completes normally
returning `undefined` and `set` completes normally extending the column;
with both components in range they behave as the plain `get`/`set`. -/
theorem getJS_setJS_range (b : Board) (pos : SquarePosition) (v : SquareContent)
    (hwf : b.Wf) :
    (8 ≤ pos.file → b.getJS pos = GetJSResult.thrown ∧ b.setJS pos v = none) ∧
    (pos.file < 8 → 8 ≤ pos.rank →
      b.getJS pos = GetJSResult.undef ∧ (b.setJS pos v).isSome = true) ∧
    (pos.file < 8 → pos.rank < 8 →
      b.getJS pos = GetJSResult.value (b.get pos) ∧ (b.setJS pos v).isSome = true) := by
  obtain ⟨hlen, hcols⟩ := hwf
  refine ⟨?_, ?_, ?_⟩
  · intro hge
    have hnone : b.squares[pos.file]? = none := List.getElem?_eq_none (by omega)
    exact ⟨by simp [Board.getJS, hnone], by simp [Board.setJS, hnone]⟩
  · intro hlt hge
    have hflt : pos.file < b.squares.length := by omega
    have hsome : b.squares[pos.file]? = some b.squares[pos.file] :=
      List.getElem?_eq_getElem hflt
    have hcl : b.squares[pos.file].length = 8 := hcols _ (List.getElem_mem hflt)
    have hrnone : b.squares[pos.file][pos.rank]? = none :=
      List.getElem?_eq_none (by omega)
    exact ⟨by simp [Board.getJS, hsome, hrnone], by simp [Board.setJS, hsome]⟩
  · intro hlt hrlt
    have hflt : pos.file < b.squares.length := by omega
    have hsome : b.squares[pos.file]? = some b.squares[pos.file] :=
      List.getElem?_eq_getElem hflt
    have hcl : b.squares[pos.file].length = 8 := hcols _ (List.getElem_mem hflt)
    have hrlt2 : pos.rank < b.squares[pos.file].length := by omega
    have hc := List.getElem?_eq_getElem hrlt2
    have hgetv : b.get pos = b.squares[pos.file][pos.rank] := by
      simp [Board.get, List.getD_eq_getElem?_getD, hsome, hc]
    refine ⟨?_, by simp [Board.setJS, hsome]⟩
    rw [hgetv]
    simp [Board.getJS, hsome, hc]

/-- Witness for the amended C3, at position (0, 8) on the fresh board. -/
theorem getJS_setJS_range_witness :
    (8 ≤ (⟨0, 8⟩ : SquarePosition).file →
      Board.init.getJS ⟨0, 8⟩ = GetJSResult.thrown ∧
      Board.init.setJS ⟨0, 8⟩ none = none) ∧
    ((⟨0, 8⟩ : SquarePosition).file < 8 → 8 ≤ (⟨0, 8⟩ : SquarePosition).rank →
      Board.init.getJS ⟨0, 8⟩ = GetJSResult.undef ∧
      (Board.init.setJS ⟨0, 8⟩ none).isSome = true) ∧
    ((⟨0, 8⟩ : SquarePosition).file < 8 → (⟨0, 8⟩ : SquarePosition).rank < 8 →
      Board.init.getJS ⟨0, 8⟩ = GetJSResult.value (Board.init.get ⟨0, 8⟩) ∧
      (Board.init.setJS ⟨0, 8⟩ none).isSome = true) :=
  getJS_setJS_range Board.init ⟨0, 8⟩ none (by decide)
